import Mathlib

/-
  Verification of the waVES temporal rate ledger (src/main.py).

  Shallow embedding conventions:
  * Calendar dates are day numbers (`Nat`) in the proleptic Gregorian
    calendar, counted from 0000-03-01.  The store compares effective dates
    as zero-padded "YYYY-MM-DD" strings, whose lexicographic order
    coincides with chronological order, i.e. with `≤` on day numbers;
    Python's `date + timedelta(days = n)` is day-number addition.
  * The wall-clock reads `datetime.now()` inside `calcular_vigencia`,
    `guardar_tasa` and `limpiar_datos_antiguos` are made explicit as
    `DateTime` / day-number arguments.
  * SQLite rows of the `historial` table become `Registro` records; the
    table plus its AUTOINCREMENT id counter become `Db`.
  * The catch-all `try/except` blocks become an explicit `storageFails`
    input; the `Option String` component of a result is the error surfaced
    to the caller (`none` = the call returns normally).
-/

namespace WaVES

/-- Day number of the civil date `y-m-d` (Gregorian, year ≥ 1): the standard
era-based conversion, used to name the concrete dates of the spec. -/
def daysFromCivil (y m d : Nat) : Nat :=
  let y2 := if m ≤ 2 then y - 1 else y
  let era := y2 / 400
  let yoe := y2 % 400
  let mp := if m > 2 then m - 3 else m + 9
  let doy := (153 * mp + 2) / 5 + d - 1
  let doe := yoe * 365 + yoe / 4 - yoe / 100 + doy
  era * 146097 + doe

/-- Python's `datetime.weekday()` of a day number: Monday = 0 … Sunday = 6. -/
def weekday (d : Nat) : Nat := (d + 2) % 7

/-- A point in time as observed by `datetime.now()`: calendar day number
plus time of day. -/
structure DateTime where
  day : Nat
  hour : Nat
  minute : Nat
  second : Nat
deriving DecidableEq, Repr

/-- `calcular_vigencia` (src/main.py lines 71-100), the effective-date
resolver, with the internal `datetime.now()` read made explicit as `ahora`.
`ahora + timedelta(days = n)` followed by `strftime("%Y-%m-%d")` is
day-number addition. -/
def calcular_vigencia (source : String) (ahora : DateTime) : Nat :=
  let hoy := ahora.day
  if source = "BINANCE" then hoy
  else if source = "BCV" then
    if weekday hoy = 4 ∧ (ahora.hour > 15 ∨ (ahora.hour = 15 ∧ ahora.minute ≥ 30)) then
      hoy + 3
    else if weekday hoy = 5 ∨ weekday hoy = 6 then
      hoy + (7 - weekday hoy)
    else if ahora.hour ≥ 16 then
      hoy + 1
    else hoy
  else hoy

/-- The Monday strictly after day `d` (for `d` within the preceding week). -/
def nextMonday (d : Nat) : Nat := d + (7 - weekday d)

/-- Reference rule table for the BCV source, following the spec's words:
Friday at or after 15:30 → next Monday; Saturday/Sunday → following Monday;
a business day at or after 16:00 → the following calendar day; otherwise
`now`'s own calendar date.  Stated against `calcular_vigencia` as a
refinement check. -/
def vigenciaRuleTable (t : DateTime) : Nat :=
  if weekday t.day = 4 ∧ 60 * t.hour + t.minute ≥ 930 then nextMonday t.day
  else if weekday t.day = 5 ∨ weekday t.day = 6 then nextMonday t.day
  else if weekday t.day ≤ 4 ∧ 60 * t.hour + t.minute ≥ 960 then t.day + 1
  else t.day

/-- Encoding of `strftime("%Y-%m-%d %H:%M:%S")`, the `fetched_at` column:
an injective timestamp of the capture instant. -/
def DateTime.stamp (t : DateTime) : Nat :=
  ((t.day * 24 + t.hour) * 60 + t.minute) * 60 + t.second

/-- Embedding of Python's `str.upper()` (the source/currency tags are
ASCII, where `str.upper` agrees with `Char.toUpper` on each character). -/
def upper (s : String) : String := ⟨s.data.map Char.toUpper⟩

/-- A row of the `historial` table (src/main.py lines 35-44). -/
structure Registro where
  id : Nat
  source : String
  currency : String
  rate : ℚ
  effective_date : Nat
  fetched_at : Nat
deriving DecidableEq, Repr

/-- The `historial` table together with its AUTOINCREMENT id counter. -/
structure Db where
  rows : List Registro
  nextId : Nat
deriving DecidableEq, Repr

/-- The upsert key of a row: the (source, currency, effective_date) triple. -/
def Registro.key (r : Registro) : String × String × Nat :=
  (r.source, r.currency, r.effective_date)

/-- `SELECT id FROM historial WHERE source=? AND currency=? AND effective_date=?`. -/
def matchesKey (s c : String) (d : Nat) (r : Registro) : Bool :=
  r.source == s && r.currency == c && r.effective_date == d

/-- The try-block body of `guardar_tasa` (src/main.py lines 108-124):
look up the row for the (source, currency, effective_date) key; if present,
`UPDATE ... SET rate=?, fetched_at=? WHERE id=?`; otherwise `INSERT` a new
row with a fresh id. -/
def upsertRow (db : Db) (s c : String) (d : Nat) (rate : ℚ) (t : Nat) : Db :=
  match db.rows.find? (matchesKey s c d) with
  | some r0 =>
    { db with
      rows := db.rows.map fun r =>
        if r.id = r0.id then { r with rate := rate, fetched_at := t } else r }
  | none =>
    { rows := db.rows ++
        [{ id := db.nextId, source := s, currency := c, rate := rate,
           effective_date := d, fetched_at := t }],
      nextId := db.nextId + 1 }

/-- `guardar_tasa` (src/main.py lines 102-127).  `storageFails` models the
SQLite layer raising inside the try block: the catch-all handler prints the
exception and the function returns normally either way, so the second
component — the error surfaced to the caller — is always `none`, and on a
failure the commit is never reached, leaving the store unchanged. -/
def guardar_tasa (storageFails : Bool) (db : Db) (source currency : String)
    (rate : ℚ) (ahora : DateTime) : Db × Option String :=
  let effective_date := calcular_vigencia source ahora
  let fetched_at := ahora.stamp
  if storageFails then (db, none)
  else (upsertRow db source currency effective_date rate fetched_at, none)

/-- `limpiar_datos_antiguos` (src/main.py lines 53-64), with the internal
`datetime.now()` read made explicit as the day number `now`:
`DELETE FROM historial WHERE effective_date < ?` with the cut-off
`now - timedelta(days=100)`.  As in `guardar_tasa`, the catch-all handler
means no error is ever surfaced. -/
def limpiar_datos_antiguos (storageFails : Bool) (db : Db) (now : Nat) :
    Db × Option String :=
  let fecha_limite := now - 100
  if storageFails then (db, none)
  else ({ db with rows := db.rows.filter fun r => !decide (r.effective_date < fecha_limite) },
        none)

/-- `ORDER BY effective_date DESC LIMIT 1` over a candidate list: a row with
maximal effective date (the ledger's uniqueness invariant makes ties among
candidates for one (source, currency) impossible). -/
def maxByEffDate : List Registro → Option Registro
  | [] => none
  | r :: rs =>
    match maxByEffDate rs with
    | none => some r
    | some m => some (if r.effective_date < m.effective_date then m else r)

/-- The WHERE clause of `consultar_smart`'s query (src/main.py lines
186-193): `source=? AND currency=? AND effective_date <= ?`, with the
source and currency arguments upper-cased. -/
def eligible (fuente moneda : String) (fecha : Nat) (r : Registro) : Bool :=
  r.source == upper fuente && r.currency == upper moneda &&
    decide (r.effective_date ≤ fecha)

/-- The fallback query of `consultar_smart`: the stored row for
(upper fuente, upper moneda) with the greatest effective date ≤ `fecha`. -/
def consultaFila (db : Db) (fuente moneda : String) (fecha : Nat) : Option Registro :=
  maxByEffDate (db.rows.filter (eligible fuente moneda fecha))

/-- Observable outcome of the `/api/consultar` handler: the `data` payload
on success (the handler additionally echoes its query arguments verbatim),
or an HTTP error status. -/
inductive ConsultarResult where
  | ok (tasa : ℚ) (vigencia : Nat) (capturado : Nat) (metodo : String)
  | error (status : Nat) (detail : String)
deriving DecidableEq, Repr

/-- `consultar_smart` (src/main.py lines 172-212). -/
def consultar_smart (db : Db) (fecha : Nat) (fuente moneda : String) : ConsultarResult :=
  match consultaFila db fuente moneda fecha with
  | some dato =>
    .ok dato.rate dato.effective_date dato.fetched_at
      (if dato.effective_date = fecha then "exacto" else "fallback_historico")
  | none => .error 404 "Datos no disponibles aún. Intente en 5 segundos."

/-- In the no-data branch `consultar_smart` first runs `actualizar_tasas()`
(one synchronous refresh) and only then raises the 404; this flag records
whether that refresh ran. -/
def consultarRefreshes (db : Db) (fecha : Nat) (fuente moneda : String) : Bool :=
  (consultaFila db fuente moneda fecha).isNone

/-- Ledger invariant: at most one row per (source, currency, effective_date). -/
def UniqueKeys (db : Db) : Prop :=
  db.rows.Pairwise fun a b => a.key ≠ b.key

/-- Primary-key discipline of the AUTOINCREMENT id column: ids are distinct
and below the next id to be handed out. -/
def WfIds (db : Db) : Prop :=
  (db.rows.map Registro.id).Nodup ∧ ∀ r ∈ db.rows, r.id < db.nextId

instance (db : Db) : Decidable (UniqueKeys db) := by
  unfold UniqueKeys
  infer_instance

instance (db : Db) : Decidable (WfIds db) := by
  unfold WfIds
  infer_instance

/-- 2024-05-03, the Friday of the spec's fallback example. -/
def viernes : Nat := daysFromCivil 2024 5 3

/-- 2024-05-05, the Sunday of the spec's fallback example. -/
def domingo : Nat := daysFromCivil 2024 5 5

/-- A stored BCV/USD observation effective on Friday 2024-05-03. -/
def registroViernes : Registro :=
  { id := 1, source := "BCV", currency := "USD", rate := 36,
    effective_date := viernes, fetched_at := 0 }

/-- A ledger holding only the Friday record. -/
def dbViernes : Db := { rows := [registroViernes], nextId := 2 }

/-- The empty ledger. -/
def dbVacia : Db := { rows := [], nextId := 1 }

lemma matchesKey_eq_true {s c : String} {d : Nat} {r : Registro} :
    matchesKey s c d r = true ↔ r.source = s ∧ r.currency = c ∧ r.effective_date = d := by
  simp [matchesKey, and_assoc]

lemma matchesKey_iff_key {s c : String} {d : Nat} {r : Registro} :
    matchesKey s c d r = true ↔ r.key = (s, c, d) := by
  rw [matchesKey_eq_true]
  simp [Registro.key, Prod.ext_iff]

lemma maxByEffDate_eq_none {l : List Registro} : maxByEffDate l = none ↔ l = [] := by
  cases l with
  | nil => simp [maxByEffDate]
  | cons r rs =>
    simp only [maxByEffDate]
    cases maxByEffDate rs <;> simp

lemma maxByEffDate_mem {l : List Registro} :
    ∀ {m : Registro}, maxByEffDate l = some m → m ∈ l := by
  induction l with
  | nil => intro m h; simp [maxByEffDate] at h
  | cons r rs ih =>
    intro m h
    cases hrs : maxByEffDate rs with
    | none =>
      simp only [maxByEffDate, hrs] at h
      injection h with h
      exact h ▸ List.mem_cons_self r rs
    | some m2 =>
      simp only [maxByEffDate, hrs] at h
      injection h with h
      by_cases hlt : r.effective_date < m2.effective_date
      · rw [if_pos hlt] at h
        exact h ▸ List.mem_cons_of_mem r (ih hrs)
      · rw [if_neg hlt] at h
        exact h ▸ List.mem_cons_self r rs

lemma maxByEffDate_isMax {l : List Registro} :
    ∀ {m : Registro}, maxByEffDate l = some m →
      ∀ x ∈ l, x.effective_date ≤ m.effective_date := by
  induction l with
  | nil => intro m h; simp [maxByEffDate] at h
  | cons r rs ih =>
    intro m h x hx
    cases hrs : maxByEffDate rs with
    | none =>
      have hnil : rs = [] := maxByEffDate_eq_none.mp hrs
      subst hnil
      simp only [maxByEffDate, hrs] at h
      injection h with h
      rcases List.mem_cons.mp hx with hx | hx
      · subst hx; exact h ▸ Nat.le_refl _
      · cases hx
    | some m2 =>
      simp only [maxByEffDate, hrs] at h
      injection h with h
      rcases List.mem_cons.mp hx with hx | hx
      · rw [hx]
        by_cases hlt : r.effective_date < m2.effective_date
        · rw [if_pos hlt] at h; rw [← h]; exact Nat.le_of_lt hlt
        · rw [if_neg hlt] at h; rw [← h]
      · have hle := ih hrs x hx
        by_cases hlt : r.effective_date < m2.effective_date
        · rw [if_pos hlt] at h; subst h; exact hle
        · rw [if_neg hlt] at h; subst h; exact Nat.le_trans hle (Nat.le_of_not_lt hlt)

lemma char_toNat_ofNat {n : Nat} (h : n < 55296) : (Char.ofNat n).toNat = n := by
  have hv : Nat.isValidChar n := Or.inl h
  simp [Char.ofNat, hv, Char.ofNatAux, Char.toNat, UInt32.toNat, BitVec.toNat_ofNatLt]

lemma toUpper_toUpper (c : Char) : c.toUpper.toUpper = c.toUpper := by
  unfold Char.toUpper
  by_cases h : c.toNat ≥ 97 ∧ c.toNat ≤ 122
  · rw [if_pos h]
    have h2 : (Char.ofNat (c.toNat - 32)).toNat = c.toNat - 32 :=
      char_toNat_ofNat (by omega)
    rw [if_neg (by omega)]
  · rw [if_neg h, if_neg h]

lemma upper_upper (s : String) : upper (upper s) = upper s := by
  have hf : Char.toUpper ∘ Char.toUpper = Char.toUpper := funext toUpper_toUpper
  simp [upper, List.map_map, hf]

lemma eligible_upper (fuente moneda : String) (fecha : Nat) :
    eligible (upper fuente) (upper moneda) fecha = eligible fuente moneda fecha := by
  funext r
  simp [eligible, upper_upper]

lemma matchesKey_update {s c : String} {d : Nat} (rate : ℚ) (t : Nat) (r : Registro) :
    matchesKey s c d { r with rate := rate, fetched_at := t } = matchesKey s c d r := rfl

lemma key_of_updated (r0 : Registro) (rate : ℚ) (t : Nat) (r : Registro) :
    (if r.id = r0.id then { r with rate := rate, fetched_at := t } else r).key = r.key := by
  split <;> rfl

lemma id_of_updated (r0 : Registro) (rate : ℚ) (t : Nat) (r : Registro) :
    (if r.id = r0.id then { r with rate := rate, fetched_at := t } else r).id = r.id := by
  split <;> rfl

lemma upsertRow_update_def {db : Db} {s c : String} {d : Nat} {r0 : Registro}
    (h : db.rows.find? (matchesKey s c d) = some r0) (rate : ℚ) (t : Nat) :
    upsertRow db s c d rate t =
      { db with
        rows := db.rows.map fun r =>
          if r.id = r0.id then { r with rate := rate, fetched_at := t } else r } := by
  unfold upsertRow
  rw [h]

lemma upsertRow_insert_def {db : Db} {s c : String} {d : Nat}
    (h : db.rows.find? (matchesKey s c d) = none) (rate : ℚ) (t : Nat) :
    upsertRow db s c d rate t =
      { rows := db.rows ++
          [{ id := db.nextId, source := s, currency := c, rate := rate,
             effective_date := d, fetched_at := t }],
        nextId := db.nextId + 1 } := by
  unfold upsertRow
  rw [h]

lemma UniqueKeys_upsertRow (db : Db) (s c : String) (d : Nat) (rate : ℚ) (t : Nat)
    (hU : UniqueKeys db) : UniqueKeys (upsertRow db s c d rate t) := by
  cases hf : db.rows.find? (matchesKey s c d) with
  | some r0 =>
    rw [upsertRow_update_def hf]
    unfold UniqueKeys at *
    rw [List.pairwise_map]
    refine hU.imp ?_
    intro a b hab
    simpa [key_of_updated] using hab
  | none =>
    rw [upsertRow_insert_def hf]
    unfold UniqueKeys at *
    rw [List.pairwise_append]
    refine ⟨hU, List.pairwise_singleton _ _, ?_⟩
    intro a ha b hb
    rw [List.mem_singleton] at hb
    subst hb
    intro hkey
    have hnone := List.find?_eq_none.mp hf a ha
    apply hnone
    rw [matchesKey_iff_key]
    simpa [Registro.key] using hkey

lemma WfIds_upsertRow (db : Db) (s c : String) (d : Nat) (rate : ℚ) (t : Nat)
    (hW : WfIds db) : WfIds (upsertRow db s c d rate t) := by
  obtain ⟨hnd, hlt⟩ := hW
  cases hf : db.rows.find? (matchesKey s c d) with
  | some r0 =>
    rw [upsertRow_update_def hf]
    constructor
    · have : ((db.rows.map fun r =>
          if r.id = r0.id then { r with rate := rate, fetched_at := t } else r).map
            Registro.id) = db.rows.map Registro.id := by
        rw [List.map_map]
        exact List.map_congr_left fun r _ => id_of_updated r0 rate t r
      rw [this]
      exact hnd
    · intro r hr
      rw [List.mem_map] at hr
      obtain ⟨x, hx, hxe⟩ := hr
      have := hlt x hx
      rw [← hxe, id_of_updated]
      exact this
  | none =>
    rw [upsertRow_insert_def hf]
    constructor
    · dsimp only
      rw [List.map_append, List.nodup_append]
      refine ⟨hnd, List.nodup_singleton _, ?_⟩
      intro a ha hb
      rw [List.map_singleton, List.mem_singleton] at hb
      subst hb
      rw [List.mem_map] at ha
      obtain ⟨x, hx, hxe⟩ := ha
      have := hlt x hx
      dsimp only at hxe
      omega
    · intro r hr
      dsimp only at hr ⊢
      rw [List.mem_append] at hr
      rcases hr with hr | hr
      · have := hlt r hr
        omega
      · rw [List.mem_singleton] at hr
        subst hr
        dsimp only
        omega

lemma filter_matchesKey_single {rows : List Registro} {s c : String} {d : Nat} {r0 : Registro}
    (hp : rows.Pairwise fun a b => a.key ≠ b.key) (h0 : r0 ∈ rows)
    (hm : matchesKey s c d r0 = true) :
    rows.filter (matchesKey s c d) = [r0] := by
  induction rows with
  | nil => cases h0
  | cons r rs ih =>
    rcases List.pairwise_cons.mp hp with ⟨hr, hp2⟩
    rcases List.mem_cons.mp h0 with h | h
    · rw [← h] at hr ⊢
      rw [List.filter_cons_of_pos hm]
      have : rs.filter (matchesKey s c d) = [] := by
        rw [List.filter_eq_nil_iff]
        intro x hx hmx
        apply hr x hx
        rw [matchesKey_iff_key] at hm hmx
        rw [hm, hmx]
      rw [this]
    · have hrneg : ¬ matchesKey s c d r = true := by
        intro hmr
        apply hr r0 h
        rw [matchesKey_iff_key] at hmr hm
        rw [hmr, hm]
      rw [List.filter_cons_of_neg hrneg]
      exact ih hp2 h

lemma matchesKey_self (s c : String) (d : Nat) (i : Nat) (rate : ℚ) (t : Nat) :
    matchesKey s c d
      { id := i, source := s, currency := c, rate := rate,
        effective_date := d, fetched_at := t } = true := by
  simp [matchesKey]

lemma upsertRow_filter (db : Db) (s c : String) (d : Nat) (rate : ℚ) (t : Nat)
    (hU : UniqueKeys db) :
    ((upsertRow db s c d rate t).rows.filter (matchesKey s c d)).map
      (fun r => (r.rate, r.fetched_at)) = [(rate, t)] := by
  cases hf : db.rows.find? (matchesKey s c d) with
  | some r0 =>
    rw [upsertRow_update_def hf]
    have hcomp : (matchesKey s c d ∘ fun r =>
        if r.id = r0.id then { r with rate := rate, fetched_at := t } else r) =
        matchesKey s c d := by
      funext r
      show matchesKey s c d (if r.id = r0.id then _ else r) = _
      split <;> simp [matchesKey_update]
    have h0 : r0 ∈ db.rows := List.mem_of_find?_eq_some hf
    have hm : matchesKey s c d r0 = true := List.find?_some hf
    show ((db.rows.map _).filter (matchesKey s c d)).map _ = _
    rw [List.filter_map, hcomp, filter_matchesKey_single hU h0 hm]
    simp
  | none =>
    rw [upsertRow_insert_def hf]
    show ((db.rows ++ _).filter (matchesKey s c d)).map _ = _
    rw [List.filter_append]
    have hnil : db.rows.filter (matchesKey s c d) = [] := by
      rw [List.filter_eq_nil_iff]
      intro x hx
      exact List.find?_eq_none.mp hf x hx
    rw [hnil, List.nil_append, List.filter_cons_of_pos (matchesKey_self s c d _ rate t)]
    simp

lemma upsertRow_length_of_found {db : Db} {s c : String} {d : Nat} {r0 : Registro}
    (h : db.rows.find? (matchesKey s c d) = some r0) (rate : ℚ) (t : Nat) :
    (upsertRow db s c d rate t).rows.length = db.rows.length := by
  rw [upsertRow_update_def h]
  simp

lemma calcular_vigencia_bcv (t : DateTime) :
    calcular_vigencia "BCV" t =
      (if weekday t.day = 4 ∧ (t.hour > 15 ∨ (t.hour = 15 ∧ t.minute ≥ 30)) then t.day + 3
       else if weekday t.day = 5 ∨ weekday t.day = 6 then t.day + (7 - weekday t.day)
       else if t.hour ≥ 16 then t.day + 1
       else t.day) := by
  unfold calcular_vigencia
  rw [if_neg (by decide), if_pos rfl]

lemma weekday_lt (d : Nat) : weekday d < 7 := Nat.mod_lt _ (by norm_num)

lemma weekday_nextMonday (d : Nat) : weekday (nextMonday d) = 0 := by
  unfold nextMonday weekday
  omega

lemma lt_nextMonday (d : Nat) : d < nextMonday d := by
  unfold nextMonday weekday
  omega

/-- C8: for the source with no rollover rule — the continuously-quoted
market feed BINANCE — and for every injected current time,
`calcular_vigencia` returns `now`'s own calendar date, regardless of the
time of day or the day of the week; the same holds for every source other
than BCV, the only source with rollover logic. -/
theorem calcular_vigencia_no_rollover (t : DateTime) :
    calcular_vigencia "BINANCE" t = t.day ∧
    ∀ s : String, s ≠ "BCV" → calcular_vigencia s t = t.day := by
  constructor
  · unfold calcular_vigencia
    rw [if_pos rfl]
  · intro s hs
    unfold calcular_vigencia
    by_cases hb : s = "BINANCE"
    · rw [if_pos hb]
    · rw [if_neg hb, if_neg hs]

/-- Witness for C8 at a concrete Saturday just before midnight. -/
theorem calcular_vigencia_no_rollover_witness :
    calcular_vigencia "BINANCE" ⟨daysFromCivil 2024 5 4, 23, 59, 59⟩ =
      daysFromCivil 2024 5 4 :=
  (calcular_vigencia_no_rollover ⟨daysFromCivil 2024 5 4, 23, 59, 59⟩).2 "BINANCE"
    (by decide)

/-- C7 counterexample: `calcular_vigencia` takes only `source` as an
argument and reads `datetime.now()` internally (there is no injected `now`
parameter in the code).  Modelling that internal read explicitly, two calls
with the identical argument `"BCV"` return different effective dates when
the ambient clock reads Friday 2024-05-03 10:00 versus Monday 2024-05-06
10:00 — refuting the claim that the result is a pure function of the
function's arguments with no internal wall-clock read. -/
theorem calcular_vigencia_reads_wall_clock :
    calcular_vigencia "BCV" ⟨daysFromCivil 2024 5 3, 10, 0, 0⟩ ≠
      calcular_vigencia "BCV" ⟨daysFromCivil 2024 5 6, 10, 0, 0⟩ := by
  decide

/-- C7 amended: `calcular_vigencia` reads the current time internally via
`datetime.now()`; modelling that single read as an explicit parameter, the
result is a deterministic pure function of (source, read time), depending
only on the read time's calendar day, hour and minute (in particular not on
its seconds). -/
theorem calcular_vigencia_deterministic (s : String) (t1 t2 : DateTime)
    (hd : t1.day = t2.day) (hh : t1.hour = t2.hour) (hm : t1.minute = t2.minute) :
    calcular_vigencia s t1 = calcular_vigencia s t2 := by
  unfold calcular_vigencia
  rw [hd, hh, hm]

/-- Witness for the amended C7: same Friday 15:30, seconds differing. -/
theorem calcular_vigencia_deterministic_witness :
    calcular_vigencia "BCV" ⟨daysFromCivil 2024 5 3, 15, 30, 0⟩ =
      calcular_vigencia "BCV" ⟨daysFromCivil 2024 5 3, 15, 30, 59⟩ :=
  calcular_vigencia_deterministic "BCV" _ _ rfl rfl rfl

/-- C6 counterexample: with the storage layer failing, `guardar_tasa` and
`limpiar_datos_antiguos` still return normally — the catch-all handlers
print the exception and surface no error to the caller (`none`), refuting
the claim that a storage failure is surfaced as a failed operation. -/
theorem guardar_tasa_swallows_failure :
    guardar_tasa true dbVacia "BCV" "USD" 36 ⟨daysFromCivil 2024 5 3, 10, 0, 0⟩ =
      (dbVacia, none) ∧
    limpiar_datos_antiguos true dbViernes (viernes + 101) = (dbViernes, none) := by
  constructor <;> rfl

/-- C6 amended: a storage failure during `guardar_tasa` or
`limpiar_datos_antiguos` is caught by the catch-all handler and only
logged: the operation completes normally, surfaces no error to the caller
(in every case the surfaced-error component is `none`), and on a failure
the store is left unchanged. -/
theorem storage_failures_logged_not_surfaced (fail : Bool) (db : Db) (s c : String)
    (rate : ℚ) (ahora : DateTime) (now : Nat) :
    (guardar_tasa fail db s c rate ahora).2 = none ∧
    (limpiar_datos_antiguos fail db now).2 = none ∧
    (guardar_tasa true db s c rate ahora).1 = db ∧
    (limpiar_datos_antiguos true db now).1 = db := by
  unfold guardar_tasa limpiar_datos_antiguos
  cases fail <;> simp

/-- C10: the date-query operation upper-cases its source and currency
arguments before matching (`fuente.upper()`, `moneda.upper()`), so a query
and its upper-cased variant read the same row and produce the same
outcome. -/
theorem consultar_smart_case_insensitive (db : Db) (fecha : Nat) (fuente moneda : String) :
    consultaFila db (upper fuente) (upper moneda) fecha =
      consultaFila db fuente moneda fecha ∧
    consultar_smart db fecha (upper fuente) (upper moneda) =
      consultar_smart db fecha fuente moneda := by
  have h : consultaFila db (upper fuente) (upper moneda) fecha =
      consultaFila db fuente moneda fecha := by
    unfold consultaFila
    rw [eligible_upper]
  refine ⟨h, ?_⟩
  unfold consultar_smart
  rw [h]

/-- C2: for the BCV source, `calcular_vigencia` coincides with the spec's
reference rule table for every injected current time with a valid minute
field; Saturday and the Sunday after it resolve to the same following
Monday; `nextMonday` really is a Monday strictly after the input day; and
the cut-off boundaries are inclusive — at 15:30 on Friday (resp. 16:00 on
Monday–Thursday) the date rolls forward, one minute before it does not. -/
theorem calcular_vigencia_bcv_rule_table (t : DateTime) (hm : t.minute < 60) :
    calcular_vigencia "BCV" t = vigenciaRuleTable t ∧
    (weekday t.day = 5 → vigenciaRuleTable t = nextMonday t.day ∧
      ∀ t2 : DateTime, t2.day = t.day + 1 →
        calcular_vigencia "BCV" t2 = nextMonday t.day) ∧
    weekday (nextMonday t.day) = 0 ∧
    t.day < nextMonday t.day ∧
    (weekday t.day = 4 →
      calcular_vigencia "BCV" ⟨t.day, 15, 30, 0⟩ = nextMonday t.day ∧
      calcular_vigencia "BCV" ⟨t.day, 15, 29, 59⟩ = t.day) ∧
    (weekday t.day ≤ 3 →
      calcular_vigencia "BCV" ⟨t.day, 16, 0, 0⟩ = t.day + 1 ∧
      calcular_vigencia "BCV" ⟨t.day, 15, 59, 59⟩ = t.day) := by
  refine ⟨?_, ?_, weekday_nextMonday t.day, lt_nextMonday t.day, ?_, ?_⟩
  · rw [calcular_vigencia_bcv]
    unfold vigenciaRuleTable nextMonday weekday
    split_ifs <;> omega
  · intro h5
    constructor
    · unfold vigenciaRuleTable nextMonday weekday at *
      split_ifs <;> omega
    · intro t2 ht2
      rw [calcular_vigencia_bcv]
      unfold nextMonday weekday at *
      split_ifs <;> omega
  · intro h4
    have h4b : (t.day + 2) % 7 = 4 := h4
    constructor <;>
      (rw [calcular_vigencia_bcv]
       simp only [nextMonday, weekday, true_and, and_true, false_and, and_false,
         or_true, true_or, false_or, or_false]
       split_ifs <;> omega)
  · intro h3
    have h3b : (t.day + 2) % 7 ≤ 3 := h3
    constructor <;>
      (rw [calcular_vigencia_bcv]
       simp only [nextMonday, weekday, true_and, and_true, false_and, and_false,
         or_true, true_or, false_or, or_false]
       split_ifs <;> omega)

/-- Witness for C2 at Friday 2024-05-03 15:30. -/
theorem calcular_vigencia_bcv_rule_table_witness :
    calcular_vigencia "BCV" ⟨daysFromCivil 2024 5 3, 15, 30, 0⟩ =
      vigenciaRuleTable ⟨daysFromCivil 2024 5 3, 15, 30, 0⟩ :=
  (calcular_vigencia_bcv_rule_table ⟨daysFromCivil 2024 5 3, 15, 30, 0⟩ (by decide)).1

lemma consultar_smart_eq_some {db : Db} {fecha : Nat} {fuente moneda : String}
    {r : Registro} (h : consultaFila db fuente moneda fecha = some r) :
    consultar_smart db fecha fuente moneda =
      .ok r.rate r.effective_date r.fetched_at
        (if r.effective_date = fecha then "exacto" else "fallback_historico") := by
  unfold consultar_smart
  rw [h]

lemma consultar_smart_eq_none {db : Db} {fecha : Nat} {fuente moneda : String}
    (h : consultaFila db fuente moneda fecha = none) :
    consultar_smart db fecha fuente moneda =
      .error 404 "Datos no disponibles aún. Intente en 5 segundos." := by
  unfold consultar_smart
  rw [h]

/-- C4: for every injected current time, the sweep deletes exactly the
records whose effective date is strictly older than `now` minus the 100-day
retention window hardcoded in the code: a record survives the sweep iff it
is stored and not strictly older than the cut-off, every surviving record
is unchanged (the result is a sublist of the original rows and the id
counter is untouched), and a second sweep at the same current time changes
nothing. -/
theorem limpiar_datos_antiguos_retention (db : Db) (now : Nat) :
    (∀ r : Registro, r ∈ (limpiar_datos_antiguos false db now).1.rows ↔
      r ∈ db.rows ∧ ¬ r.effective_date < now - 100) ∧
    (limpiar_datos_antiguos false (limpiar_datos_antiguos false db now).1 now).1 =
      (limpiar_datos_antiguos false db now).1 ∧
    (limpiar_datos_antiguos false db now).1.nextId = db.nextId ∧
    (limpiar_datos_antiguos false db now).1.rows.Sublist db.rows := by
  have e : (limpiar_datos_antiguos false db now).1 =
      { db with rows := db.rows.filter fun r => !decide (r.effective_date < now - 100) } :=
    rfl
  have e2 : (limpiar_datos_antiguos false (limpiar_datos_antiguos false db now).1 now).1 =
      { db with rows := ((db.rows.filter (fun r => !decide (r.effective_date < now - 100))).filter
          (fun r => !decide (r.effective_date < now - 100))) } := rfl
  refine ⟨?_, ?_, ?_, ?_⟩
  · intro r
    rw [e]
    simp [List.mem_filter]
  · rw [e2, e]
    congr 1
    rw [List.filter_filter]
    congr 1
    funext a
    exact Bool.and_self _
  · rw [e]
  · rw [e]
    exact List.filter_sublist _

/-- C5: if no stored record for the queried (upper-cased) source/currency
pair has effective date ≤ the requested date — in particular if the store
is empty — `consultar_smart` reports the 404 not-found outcome, and the
one synchronous refresh (`actualizar_tasas()`) runs before it; and every
successful answer's rate, effective date and capture timestamp come from a
stored record, never from a zero-valued or fabricated default. -/
theorem consultar_smart_not_found (db : Db) (fecha : Nat) (fuente moneda : String) :
    ((∀ r ∈ db.rows, eligible fuente moneda fecha r = false) →
      consultar_smart db fecha fuente moneda =
        .error 404 "Datos no disponibles aún. Intente en 5 segundos." ∧
      consultarRefreshes db fecha fuente moneda = true) ∧
    (db.rows = [] →
      consultar_smart db fecha fuente moneda =
        .error 404 "Datos no disponibles aún. Intente en 5 segundos." ∧
      consultarRefreshes db fecha fuente moneda = true) ∧
    (∀ q v cap met, consultar_smart db fecha fuente moneda = .ok q v cap met →
      ∃ r, r ∈ db.rows ∧ r.rate = q ∧ r.effective_date = v ∧ r.fetched_at = cap) := by
  have hout : ∀ _ : db.rows.filter (eligible fuente moneda fecha) = [],
      consultaFila db fuente moneda fecha = none := by
    intro h
    unfold consultaFila
    rw [h]
    rfl
  refine ⟨?_, ?_, ?_⟩
  · intro hall
    have hnil : db.rows.filter (eligible fuente moneda fecha) = [] := by
      rw [List.filter_eq_nil_iff]
      intro a ha
      rw [hall a ha]
      simp
    have hcf := hout hnil
    exact ⟨consultar_smart_eq_none hcf, by unfold consultarRefreshes; rw [hcf]; rfl⟩
  · intro hempty
    have hnil : db.rows.filter (eligible fuente moneda fecha) = [] := by
      rw [hempty]
      rfl
    have hcf := hout hnil
    exact ⟨consultar_smart_eq_none hcf, by unfold consultarRefreshes; rw [hcf]; rfl⟩
  · intro q v cap met h
    cases hcf : consultaFila db fuente moneda fecha with
    | none =>
      rw [consultar_smart_eq_none hcf] at h
      cases h
    | some r =>
      rw [consultar_smart_eq_some hcf] at h
      injection h with h1 h2 h3 h4
      have hcfF : maxByEffDate (db.rows.filter (eligible fuente moneda fecha)) = some r := hcf
      have hmem := maxByEffDate_mem hcfF
      exact ⟨r, (List.mem_filter.mp hmem).1, h1, h2, h3⟩

/-- Witness for C5 on the empty ledger. -/
theorem consultar_smart_not_found_witness :
    consultar_smart dbVacia viernes "BCV" "USD" =
      .error 404 "Datos no disponibles aún. Intente en 5 segundos." ∧
    consultarRefreshes dbVacia viernes "BCV" "USD" = true :=
  (consultar_smart_not_found dbVacia viernes "BCV" "USD").2.1 rfl

/-- C1: for every ledger state and query, if at least one stored record for
the queried (source, currency) pair has effective date ≤ the requested
date, `consultar_smart` answers with the record with the greatest such
effective date, and the reported method is "exacto" exactly when that
record's effective date equals the requested date (otherwise
"fallback_historico"); if no record qualifies it reports the 404 not-found
outcome.  In particular, with only the Friday 2024-05-03 record stored, a
query for Sunday 2024-05-05 returns the Friday record as a fallback and a
query for 2024-05-03 returns it as exact. -/
theorem consultar_smart_fallback_correct (db : Db) (fuente moneda : String) (fecha : Nat) :
    (∀ r ∈ db.rows, eligible fuente moneda fecha r = true →
      ∃ m, consultaFila db fuente moneda fecha = some m ∧
        m ∈ db.rows ∧ eligible fuente moneda fecha m = true ∧
        (∀ x ∈ db.rows, eligible fuente moneda fecha x = true →
          x.effective_date ≤ m.effective_date) ∧
        ∃ met, consultar_smart db fecha fuente moneda =
            .ok m.rate m.effective_date m.fetched_at met ∧
          (met = "exacto" ↔ m.effective_date = fecha)) ∧
    ((∀ r ∈ db.rows, eligible fuente moneda fecha r = false) →
      consultar_smart db fecha fuente moneda =
        .error 404 "Datos no disponibles aún. Intente en 5 segundos.") ∧
    consultar_smart dbViernes domingo "BCV" "USD" =
      .ok 36 viernes 0 "fallback_historico" ∧
    consultar_smart dbViernes viernes "BCV" "USD" = .ok 36 viernes 0 "exacto" := by
  refine ⟨?_, ?_, by decide, by decide⟩
  · intro r hr he
    cases hcf : consultaFila db fuente moneda fecha with
    | none =>
      exfalso
      have hcfF : maxByEffDate (db.rows.filter (eligible fuente moneda fecha)) = none := hcf
      rw [maxByEffDate_eq_none] at hcfF
      have hrf : r ∈ db.rows.filter (eligible fuente moneda fecha) :=
        List.mem_filter.mpr ⟨hr, he⟩
      rw [hcfF] at hrf
      cases hrf
    | some m =>
      have hcfF : maxByEffDate (db.rows.filter (eligible fuente moneda fecha)) = some m := hcf
      have hmem := maxByEffDate_mem hcfF
      refine ⟨m, rfl, (List.mem_filter.mp hmem).1, (List.mem_filter.mp hmem).2, ?_, ?_⟩
      · intro x hx hex
        exact maxByEffDate_isMax hcfF x (List.mem_filter.mpr ⟨hx, hex⟩)
      · refine ⟨_, consultar_smart_eq_some hcf, ?_⟩
        by_cases hexact : m.effective_date = fecha
        · rw [if_pos hexact]
          simp [hexact]
        · rw [if_neg hexact]
          constructor
          · intro hmet
            exact absurd hmet (by decide)
          · intro hq
            exact absurd hq hexact
  · intro hall
    apply consultar_smart_eq_none
    have hnil : db.rows.filter (eligible fuente moneda fecha) = [] := by
      rw [List.filter_eq_nil_iff]
      intro a ha
      rw [hall a ha]
      simp
    unfold consultaFila
    rw [hnil]
    rfl

/-- Witness for C1: the Sunday query against the Friday-only ledger. -/
theorem consultar_smart_fallback_correct_witness :
    ∃ m, consultaFila dbViernes "BCV" "USD" domingo = some m ∧
      m ∈ dbViernes.rows ∧ eligible "BCV" "USD" domingo m = true ∧
      (∀ x ∈ dbViernes.rows, eligible "BCV" "USD" domingo x = true →
        x.effective_date ≤ m.effective_date) ∧
      ∃ met, consultar_smart dbViernes domingo "BCV" "USD" =
          .ok m.rate m.effective_date m.fetched_at met ∧
        (met = "exacto" ↔ m.effective_date = domingo) :=
  (consultar_smart_fallback_correct dbViernes "BCV" "USD" domingo).1 registroViernes
    (by decide) (by decide)

/-- C3: `guardar_tasa`'s upsert preserves the at-most-one-record-per-
(source, currency, effective_date) invariant (together with the id-column
discipline), and two successive saves that resolve to the same effective
date leave exactly one record for that key, carrying the second call's
rate and capture timestamp, without creating a duplicate row. -/
theorem guardar_tasa_upsert_invariant (db : Db) (s c : String) (r1 r2 : ℚ)
    (a1 a2 : DateTime) (hU : UniqueKeys db) (hW : WfIds db)
    (hd : calcular_vigencia s a1 = calcular_vigencia s a2) :
    UniqueKeys (guardar_tasa false db s c r1 a1).1 ∧
    WfIds (guardar_tasa false db s c r1 a1).1 ∧
    UniqueKeys (guardar_tasa false (guardar_tasa false db s c r1 a1).1 s c r2 a2).1 ∧
    WfIds (guardar_tasa false (guardar_tasa false db s c r1 a1).1 s c r2 a2).1 ∧
    ((guardar_tasa false (guardar_tasa false db s c r1 a1).1 s c r2 a2).1.rows.filter
        (matchesKey s c (calcular_vigencia s a2))).map (fun r => (r.rate, r.fetched_at)) =
      [(r2, a2.stamp)] ∧
    (guardar_tasa false (guardar_tasa false db s c r1 a1).1 s c r2 a2).1.rows.length =
      (guardar_tasa false db s c r1 a1).1.rows.length := by
  have e1 : (guardar_tasa false db s c r1 a1).1 =
      upsertRow db s c (calcular_vigencia s a1) r1 a1.stamp := rfl
  have hU1 : UniqueKeys (guardar_tasa false db s c r1 a1).1 := by
    rw [e1]
    exact UniqueKeys_upsertRow db s c _ r1 a1.stamp hU
  have hW1 : WfIds (guardar_tasa false db s c r1 a1).1 := by
    rw [e1]
    exact WfIds_upsertRow db s c _ r1 a1.stamp hW
  have e2 : (guardar_tasa false (guardar_tasa false db s c r1 a1).1 s c r2 a2).1 =
      upsertRow (guardar_tasa false db s c r1 a1).1 s c (calcular_vigencia s a2) r2
        a2.stamp := rfl
  have hU2 : UniqueKeys (guardar_tasa false (guardar_tasa false db s c r1 a1).1 s c r2 a2).1 := by
    rw [e2]
    exact UniqueKeys_upsertRow _ s c _ r2 a2.stamp hU1
  have hW2 : WfIds (guardar_tasa false (guardar_tasa false db s c r1 a1).1 s c r2 a2).1 := by
    rw [e2]
    exact WfIds_upsertRow _ s c _ r2 a2.stamp hW1
  refine ⟨hU1, hW1, hU2, hW2, ?_, ?_⟩
  · rw [e2]
    exact upsertRow_filter _ s c _ r2 a2.stamp hU1
  · have hfil := upsertRow_filter db s c (calcular_vigencia s a1) r1 a1.stamp hU
    rw [← e1] at hfil
    have hne : (guardar_tasa false db s c r1 a1).1.rows.filter
        (matchesKey s c (calcular_vigencia s a1)) ≠ [] := by
      intro hnil
      rw [hnil] at hfil
      cases hfil
    obtain ⟨x, hx⟩ := List.exists_mem_of_ne_nil _ hne
    have hx1 := (List.mem_filter.mp hx).1
    have hx2 := (List.mem_filter.mp hx).2
    rw [hd] at hx2
    have hsome : ((guardar_tasa false db s c r1 a1).1.rows.find?
        (matchesKey s c (calcular_vigencia s a2))).isSome :=
      List.find?_isSome.mpr ⟨x, hx1, hx2⟩
    obtain ⟨r0, hr0⟩ := Option.isSome_iff_exists.mp hsome
    rw [e2]
    exact upsertRow_length_of_found hr0 r2 a2.stamp

/-- Witness for C3: two saves of different BCV/USD rates on the same Friday
morning, starting from the empty ledger. -/
theorem guardar_tasa_upsert_invariant_witness :
    ((guardar_tasa false (guardar_tasa false dbVacia "BCV" "USD" 36 ⟨viernes, 10, 0, 0⟩).1
        "BCV" "USD" 37 ⟨viernes, 11, 0, 0⟩).1.rows.filter
        (matchesKey "BCV" "USD" (calcular_vigencia "BCV" ⟨viernes, 11, 0, 0⟩))).map
      (fun r => (r.rate, r.fetched_at)) =
      [(37, DateTime.stamp ⟨viernes, 11, 0, 0⟩)] :=
  (guardar_tasa_upsert_invariant dbVacia "BCV" "USD" 36 37 ⟨viernes, 10, 0, 0⟩
    ⟨viernes, 11, 0, 0⟩ (by decide) (by decide) (by decide)).2.2.2.2.1

/-- C9: when the upsert inside `guardar_tasa` finds an existing record for
its (source, currency, effective_date) key, it rewrites only that record's
rate and fetched_at in place: the id counter is untouched, no row is added
or removed, every row keeps its id, source, currency and effective date,
rows other than the found one are completely unchanged, and the found one
receives the new rate and capture timestamp. -/
theorem guardar_tasa_update_frame (db : Db) (s c : String) (d0 : Nat) (rate : ℚ)
    (t : Nat) (r0 : Registro) (h : db.rows.find? (matchesKey s c d0) = some r0) :
    (upsertRow db s c d0 rate t).nextId = db.nextId ∧
    (upsertRow db s c d0 rate t).rows.length = db.rows.length ∧
    List.Forall₂ (fun old new =>
        new.id = old.id ∧ new.source = old.source ∧ new.currency = old.currency ∧
        new.effective_date = old.effective_date ∧
        (old.id = r0.id → new.rate = rate ∧ new.fetched_at = t) ∧
        (old.id ≠ r0.id → new = old))
      db.rows (upsertRow db s c d0 rate t).rows := by
  rw [upsertRow_update_def h]
  refine ⟨rfl, by simp, ?_⟩
  rw [List.forall₂_map_right_iff]
  rw [List.forall₂_same]
  intro x _
  by_cases hid : x.id = r0.id
  · rw [if_pos hid]
    exact ⟨rfl, rfl, rfl, rfl, fun _ => ⟨rfl, rfl⟩, fun hne => absurd hid hne⟩
  · rw [if_neg hid]
    exact ⟨rfl, rfl, rfl, rfl, fun heq => absurd heq hid, fun _ => rfl⟩

/-- Witness for C9: overwriting the stored Friday record's rate. -/
theorem guardar_tasa_update_frame_witness :
    (upsertRow dbViernes "BCV" "USD" viernes 37 5).nextId = dbViernes.nextId ∧
    (upsertRow dbViernes "BCV" "USD" viernes 37 5).rows.length = dbViernes.rows.length :=
  ⟨(guardar_tasa_update_frame dbViernes "BCV" "USD" viernes 37 5 registroViernes
      (by decide)).1,
   (guardar_tasa_update_frame dbViernes "BCV" "USD" viernes 37 5 registroViernes
      (by decide)).2.1⟩

end WaVES
